import Mathlib

/-!
Verification of the Tracer `WebsitePool` component
(`src/tracer/src/models/websitepool.py`) against its natural-language
specification.

The development has three layers:

* a value-level embedding of the pool and its collection operations
  (`WebsitePool`, `PyVal`, `add`, `remove`, `get`, `extend`, ...), where
  Python's dynamic typing is made explicit through the `PyVal` sum type and
  a raised `TypeError` is represented by the `Option String` component of
  each mutator's return value (`none` = no exception; on an exception the
  returned pool is the unchanged receiver, matching the source, which
  type-checks its argument before any mutation);

* a schedule-based model of the asynchronous dispatch-and-collect loop of
  `start_requests` (the `asyncio.Queue`, the `gather` completion signal and
  the 250 ms polling wait appear as an explicit event list);

* an address-based heap model capturing Python object identity, used for
  the shallow-copy/deep-copy aliasing properties (`__copy__`,
  `__deepcopy__` with its memo dictionary).

The collaborator classes `Website` and `Result` (files `website.py` and
`result.py`) are not part of the source under verification; the definitions
that stand for them are marked `Modelled from the spec:` and follow the
specification's description of the Probe Target and Result interfaces.
-/

/-- Modelled from the spec: `Result` (file `result.py` is not under `src/`).
An immutable value describing one probe outcome: originating target
identity, outcome status, optional evidence payload. -/
structure Result where
  name : String
  status : String
  payload : Option String
deriving DecidableEq

/-- Modelled from the spec: `Website` (file `website.py` is not under
`src/`). A Probe Target: stable identity `name`, mutable search parameter
`username`, optional last-computed `result`. -/
structure Website where
  name : String
  username : String
  result : Option Result
deriving DecidableEq

/-- Modelled from the spec: Probe Target equality — two targets are equal iff
their identities match (equality does not depend on the mutable search
parameter). This is the `==` used by `WebsitePool.__contains__`. -/
def Website.weq (a b : Website) : Bool :=
  a.name == b.name

/-- Modelled from the spec: `Website.set_username` sets the mutable search
parameter of the target. -/
def Website.set_username (w : Website) (u : String) : Website :=
  { w with username := u }

/-- Modelled from the spec: a deep copy of a single target at the value
level is a field-by-field copy (the heap model below refines this with
object identity). -/
def Website.deepcopyVal (w : Website) : Website :=
  { name := w.name, username := w.username, result := w.result }

/-- Embeds the `WebsitePool` object state: the private `__sites` list, the
`__name` attribute and the `__allow_duplicates` flag
(`websitepool.py` lines 80-83). -/
structure WebsitePool where
  sites : List Website
  name : String
  allow_duplicates : Bool
deriving DecidableEq

/-- A dynamically-typed Python value, as far as the pool's `isinstance`
checks can distinguish them. -/
inductive PyVal where
  | str (s : String)
  | pynone
  | int (n : Int)
  | website (w : Website)
  | pool (p : WebsitePool)

/-- Embeds `type(x).__qualname__` for the modelled value kinds. -/
def PyVal.typeName : PyVal → String
  | .str _ => "str"
  | .pynone => "NoneType"
  | .int _ => "int"
  | .website _ => "Website"
  | .pool _ => "WebsitePool"

/-- Embeds the `TypeError` message template used throughout the source
(quotation marks of the original message omitted). -/
def typeErrMsg (expected : String) (v : PyVal) : String :=
  "TypeError: expected " ++ expected ++ " instead of " ++ v.typeName

namespace WebsitePool

/-- Embeds `WebsitePool.__len__` (line 91-92). -/
def len (p : WebsitePool) : Nat :=
  p.sites.length

/-- Embeds the membership test of `__contains__` restricted to an actual
`Website` argument: `any(map(lambda w: w == obj, self))` (line 98). -/
def contains_site (p : WebsitePool) (w : Website) : Bool :=
  p.sites.any (fun m => m.weq w)

/-- Embeds `WebsitePool.__contains__` (lines 97-98):
`isinstance(obj, Website) and any(map(lambda w: w == obj, self))`. -/
def contains (p : WebsitePool) (v : PyVal) : Bool :=
  match v with
  | .website w => p.contains_site w
  | _ => false

/-- Embeds the `sites` property (lines 116-118): `tuple(self.__sites)` — a
fresh immutable snapshot of the internal list. -/
def sitesView (p : WebsitePool) : List Website :=
  p.sites

/-- Embeds the `results` property (lines 124-126):
`tuple([site.result for site in self if site.result])` — a `Result` object
is always truthy, `None` is falsy, so the comprehension keeps exactly the
sites whose `result` is present. -/
def results (p : WebsitePool) : List Result :=
  p.sites.filterMap (fun s => s.result)

/-- Embeds the `is_empty` property (lines 128-130): `not bool(self)` where
truthiness goes through `__len__`. -/
def is_empty (p : WebsitePool) : Bool :=
  p.len == 0

/-- Embeds `WebsitePool.set_name` (lines 132-149): type-checks the argument
first, then assigns `self.__name`. On a `TypeError` the pool is returned
unchanged together with the exception message. -/
def set_name (p : WebsitePool) (v : PyVal) : WebsitePool × Option String :=
  match v with
  | .str s => ({ p with name := s }, none)
  | _ => (p, some (typeErrMsg "str" v))

/-- Embeds `WebsitePool.set_username` (lines 151-169): type-checks the
argument first, then calls `site.set_username(username)` for every site of
the `self.sites` snapshot. -/
def set_username (p : WebsitePool) (v : PyVal) : WebsitePool × Option String :=
  match v with
  | .str s => ({ p with sites := p.sites.map (fun w => w.set_username s) }, none)
  | _ => (p, some (typeErrMsg "str" v))

/-- Embeds `WebsitePool.add` (lines 171-191): type-checks the argument,
silently returns on a duplicate when duplicates are rejected, otherwise
appends to `self.__sites`. -/
def add (p : WebsitePool) (v : PyVal) : WebsitePool × Option String :=
  match v with
  | .website w =>
      if !p.allow_duplicates && p.contains_site w then (p, none)
      else ({ p with sites := p.sites ++ [w] }, none)
  | _ => (p, some (typeErrMsg "tracer.Website" v))

/-- Embeds `WebsitePool.extend` (lines 193-215): type-checks the argument,
then `add`s every site of the other pool, deep-copying each when the
`_deepcopy` flag is set. -/
def extend (p : WebsitePool) (v : PyVal) (dc : Bool) : WebsitePool × Option String :=
  match v with
  | .pool q =>
      (q.sites.foldl (fun acc site =>
        (acc.add (.website (if dc then site.deepcopyVal else site))).1) p, none)
  | _ => (p, some (typeErrMsg "tracer.WebsitePool" v))

/-- Embeds `WebsitePool.remove` (lines 217-228):
`self.__sites = list(filter(lambda w: not where(w), self.sites))` — the
predicate is evaluated on the `self.sites` snapshot, the survivors keep
their relative order. -/
def remove (p : WebsitePool) (wh : Website → Bool) : WebsitePool :=
  { p with sites := p.sites.filter (fun w => !wh w) }

/-- Embeds `WebsitePool.get` (lines 230-247): `tuple(filter(where, self))`. -/
def get (p : WebsitePool) (wh : Website → Bool) : List Website :=
  p.sites.filter wh

/-- Embeds `WebsitePool.get_by_name` (lines 249-266):
`result[0] if result else None` over `get` with a name-equality predicate. -/
def get_by_name (p : WebsitePool) (n : String) : Option Website :=
  (p.get (fun w => w.name == n)).head?

/-- Embeds the `for site in sites: self.add(site)` loop of `__init__`
(lines 85-86), propagating the first `TypeError` as an aborted
construction. -/
def addAll : WebsitePool → List PyVal → Except String WebsitePool
  | p, [] => Except.ok p
  | p, v :: rest =>
      match p.add v with
      | (_, some e) => Except.error e
      | (p1, none) => addAll p1 rest

/-- Embeds `WebsitePool.__init__` (lines 68-86): starts from an empty
`__sites` list, calls `set_name(name)` (whose `TypeError`, if any, aborts
construction), then `add`s each positional site. -/
def init (sts : List PyVal) (nm : PyVal) (allow_dup : Bool) : Except String WebsitePool :=
  let base : WebsitePool := { sites := [], name := "", allow_duplicates := allow_dup }
  match base.set_name nm with
  | (_, some e) => Except.error e
  | (p1, none) => addAll p1 sts

end WebsitePool

/-- Spec-side description of the `results` view, written from the
specification sentence "exactly the last-known Result of each target that
has one, in pool order": take the targets in pool order, read each one's
last-known result, and drop the absent ones. -/
def resultsSpec (p : WebsitePool) : List Result :=
  (p.sites.map Website.result).reduceOption

namespace WebsitePool

/-- Duplicate-freedom under the reject policy: when `allow_duplicates` is
false, no two sites of the sequence are equal per Probe Target equality. -/
def dupFree (p : WebsitePool) : Prop :=
  p.allow_duplicates = false → p.sites.Pairwise (fun a b => a.weq b = false)

end WebsitePool

/-- Modelled from the spec: the observable behavior of one
`Website.send_request` call (`website.py` is not under `src/`; the spec
fixes the Probe Target contract "must invoke on_result exactly zero or one
time"). The probe either succeeds and invokes the result callback with
exactly one `Result`, or raises an unhandled fault and never invokes the
callback. -/
inductive SendOutcome where
  | success (r : Result)
  | fault (msg : String)
deriving DecidableEq

/-- The `Result` a probe pushes into the aggregation channel, if any. -/
def SendOutcome.emitted : SendOutcome → Option Result
  | .success r => some r
  | .fault _ => none

/-- One scheduler event of the dispatch loop of `start_requests`
(lines 303-314): either probe `i` finishes (its `send_request` coroutine
returns or raises, having pushed its `Result` on success), or the consumer
loop runs one iteration. -/
inductive DispatchEv where
  | complete (i : Nat)
  | poll
deriving DecidableEq

/-- The state of the async generator of `start_requests`: the
`asyncio.Queue` contents, the set of finished probes (backing
`requests.done()`), the Results yielded to the caller so far, and whether
the generator has reached its exhausted state. -/
structure DispatchState where
  queue : List Result
  completed : List Nat
  yielded : List Result
  finished : Bool
deriving DecidableEq

/-- The generator state right after line 303-307: empty queue, no probe
finished, nothing yielded. -/
def initDispatch : DispatchState :=
  { queue := [], completed := [], yielded := [], finished := false }

/-- Embeds `asyncio.wait_for(results.get(), timeout=0.25)` (line 311): on an
empty queue the bounded wait expires with a `TimeoutError`; otherwise the
head of the FIFO queue is returned. -/
def queueGet (q : List Result) : Except String (Result × List Result) :=
  match q with
  | [] => Except.error "TimeoutError"
  | r :: rest => Except.ok (r, rest)

/-- Embeds `requests.done()` for `requests = asyncio.gather(*requests)`
(line 307) over `n` probes: true once every probe coroutine has finished,
normally or by raising. -/
def allDone (n : Nat) (completed : List Nat) : Bool :=
  (List.range n).all (fun i => completed.contains i)

/-- One step of the dispatch semantics (lines 303-314). A `complete i` event
marks probe `i` done, enqueueing its `Result` when it succeeded
(`callback=results.put`) and enqueueing nothing when it faulted. A `poll`
event is one iteration of the consumer loop: the condition
`not (results.empty() and requests.done())` is re-checked — once it fails
the generator is exhausted — and otherwise one bounded-wait pop is
attempted, whose `TimeoutError` is swallowed by the bare `except Exception`
(lines 312-314). Events reaching an exhausted generator change nothing. -/
def dispatchStep (outcomes : List SendOutcome) (n : Nat)
    (s : DispatchState) : DispatchEv → DispatchState
  | .complete i =>
      if s.finished then s
      else
        match outcomes[i]?.bind SendOutcome.emitted with
        | some r => { s with queue := s.queue ++ [r], completed := s.completed ++ [i] }
        | none => { s with completed := s.completed ++ [i] }
  | .poll =>
      if s.finished then s
      else if s.queue.isEmpty && allDone n s.completed then
        { s with finished := true }
      else
        match queueGet s.queue with
        | Except.ok (r, rest) => { s with queue := rest, yielded := s.yielded ++ [r] }
        | Except.error _ => s

/-- Runs further consumer-loop iterations; each recursive call is one more
pass through the `while` loop of lines 309-314. -/
def pollRepeat (outcomes : List SendOutcome) (n : Nat) :
    Nat → DispatchState → DispatchState
  | 0, s => s
  | fuel + 1, s => pollRepeat outcomes n fuel (dispatchStep outcomes n s .poll)

/-- The full run of the async generator returned by `start_requests`
(lines 268-314) under probe outcomes `outcomes` and scheduler interleaving
`evs`: process the interleaved completion/poll events, then keep polling —
one more iteration than the queue is long suffices once every probe is
done. -/
def runDispatch (outcomes : List SendOutcome) (n : Nat)
    (evs : List DispatchEv) : DispatchState :=
  let s := evs.foldl (dispatchStep outcomes n) initDispatch
  pollRepeat outcomes n (s.queue.length + 1) s

/-- The probe-completion order of a schedule. -/
def completesOf (evs : List DispatchEv) : List Nat :=
  evs.filterMap (fun e => match e with | .complete i => some i | .poll => none)

/-- A scheduler interleaving is valid for `n` probes when every probe
completes exactly once (the event loop runs each coroutine passed to
`asyncio.gather` to completion exactly once). -/
def ValidSchedule (n : Nat) (evs : List DispatchEv) : Prop :=
  (completesOf evs).Perm (List.range n)

/-- The Results pushed into the channel by the probes of `l`, in completion
order. -/
def enqueuedOf (outcomes : List SendOutcome) (l : List Nat) : List Result :=
  l.filterMap (fun i => outcomes[i]?.bind SendOutcome.emitted)

/-- Modelled from the spec: a heap-allocated Probe Target object — identity
`name`, mutable search parameter `username`, and a reference to a further
object reachable from the target (the spec requires deep copies to keep
"objects reachable from multiple targets shared in the copy rather than
duplicated"). -/
structure HWebsite where
  name : String
  username : String
  dataRef : Nat
deriving DecidableEq

/-- A Python-style heap: one address allocator shared by every object kind
(`id()` values are unique across objects), with list objects, website
objects and plain data objects stored by address. -/
structure Heap where
  nextAddr : Nat
  lists : Nat → Option (List Nat)
  websites : Nat → Option HWebsite
  datas : Nat → Option String

/-- Updates one entry of an address-indexed store. -/
def updFn {α : Type} (f : Nat → Option α) (a : Nat) (v : α) : Nat → Option α :=
  fun x => if x = a then some v else f x

/-- The pool object at the heap level: its `__sites` attribute is a
reference to a list object, its `__name` and `__allow_duplicates`
attributes are immutable values. -/
structure HPool where
  sitesRef : Nat
  name : String
  allow_duplicates : Bool
deriving DecidableEq

/-- The default used by `Option.getD` when reading a website object; a
well-formed read never falls back to it. -/
def dWeb : HWebsite :=
  { name := "", username := "", dataRef := 0 }

/-- The addresses held by the pool's site list. -/
def HPool.siteAddrs (h : Heap) (p : HPool) : List Nat :=
  (h.lists p.sitesRef).getD []

/-- The website objects of the pool, read through the heap in pool order. -/
def HPool.targetVals (h : Heap) (p : HPool) : List (Option HWebsite) :=
  (p.siteAddrs h).map (fun a => h.websites a)

/-- Well-formedness of a pool in a heap: the list reference and every site
address are allocated, and the object a website's `dataRef` points to is
not itself a website object (distinct Python objects have distinct ids and
kinds). -/
def HPool.wf (h : Heap) (p : HPool) : Prop :=
  p.sitesRef < h.nextAddr ∧ (h.lists p.sitesRef).isSome
    ∧ ∀ a ∈ p.siteAddrs h, a < h.nextAddr ∧ (h.websites a).isSome
      ∧ h.websites ((h.websites a).getD dWeb).dataRef = none

/-- Heap-level `Website.set_username`: mutates the website object at
address `a` in place. -/
def setUsernameAt (h : Heap) (a : Nat) (u : String) : Heap :=
  match h.websites a with
  | some w => { h with websites := updFn h.websites a { w with username := u } }
  | none => h

/-- Embeds `WebsitePool.__copy__` (lines 100-104):
`pool.__dict__.update(self.__dict__)` copies every attribute reference into
the new pool object — in particular the copy's `__sites` attribute is the
very same list object, and its sites are the very same website objects. -/
def shallowCopyPool (p : HPool) : HPool :=
  { sitesRef := p.sitesRef, name := p.name, allow_duplicates := p.allow_duplicates }

/-- Embeds `copy.deepcopy` on a plain data object, with the memo dictionary
keyed by source address: an address already copied is returned from the
memo, otherwise a fresh object is allocated and recorded. -/
def deepcopyData (h : Heap) (memo : List (Nat × Nat)) (a : Nat) :
    Heap × List (Nat × Nat) × Nat :=
  match memo.lookup a with
  | some b => (h, memo, b)
  | none =>
      let b := h.nextAddr
      ({ h with nextAddr := b + 1, datas := updFn h.datas b ((h.datas a).getD "") },
       (a, b) :: memo, b)

/-- Embeds `copy.deepcopy` on a website object with the shared memo: on a
memo miss the referenced data object is copied first (through the same
memo, preserving sharing), then a fresh website object is allocated. -/
def deepcopyWebsite (h : Heap) (memo : List (Nat × Nat)) (a : Nat) :
    Heap × List (Nat × Nat) × Nat :=
  match memo.lookup a with
  | some b => (h, memo, b)
  | none =>
      let w := (h.websites a).getD dWeb
      let step1 := deepcopyData h memo w.dataRef
      let h1 := step1.1
      let m1 := step1.2.1
      let d := step1.2.2
      let b := h1.nextAddr
      ({ h1 with nextAddr := b + 1,
                 websites := updFn h1.websites b
                   { name := w.name, username := w.username, dataRef := d } },
       (a, b) :: m1, b)

/-- Embeds the element-wise `copy.deepcopy` of the `__sites` list: every
site is copied through the one shared memo, left to right. -/
def deepcopySites (h : Heap) (memo : List (Nat × Nat)) :
    List Nat → Heap × List (Nat × Nat) × List Nat
  | [] => (h, memo, [])
  | a :: rest =>
      let step1 := deepcopyWebsite h memo a
      let step2 := deepcopySites step1.1 step1.2.1 rest
      (step2.1, step2.2.1, step1.2.2 :: step2.2.2)

/-- Embeds `WebsitePool.__deepcopy__` (lines 106-114): a new pool object
whose `__dict__` holds deep copies of every attribute made through one
shared memo — a fresh list object holding fresh website objects (`__name`
and `__allow_duplicates` are immutable values and copy to themselves). The
`memo[id(self)] = pool` line guards against cycles through the pool itself,
which cannot occur in this object graph. -/
def deepcopyPool (h : Heap) (p : HPool) : Heap × HPool :=
  let addrs := p.siteAddrs h
  let step1 := deepcopySites h [] addrs
  let h1 := step1.1
  let bs := step1.2.2
  let r := h1.nextAddr
  ({ h1 with nextAddr := r + 1, lists := updFn h1.lists r bs },
   { sitesRef := r, name := p.name, allow_duplicates := p.allow_duplicates })

/-- The copying heap only grows: addresses allocated before are preserved
entry for entry, and list objects are untouched. -/
def heapExtends (h0 h : Heap) : Prop :=
  h0.nextAddr ≤ h.nextAddr
  ∧ (∀ a, a < h0.nextAddr → h.websites a = h0.websites a)
  ∧ (∀ a, a < h0.nextAddr → h.datas a = h0.datas a)
  ∧ h.lists = h0.lists

/-- Every memo image is a fresh address of the copying heap. -/
def memoOk (h0 h : Heap) (m : List (Nat × Nat)) : Prop :=
  ∀ k v, m.lookup k = some v → h0.nextAddr ≤ v ∧ v < h.nextAddr

/-- A memo entry keyed by a website address stores a faithful copy of that
website, whose `dataRef` is itself memo-consistent. -/
def memoCopies (h0 h : Heap) (m : List (Nat × Nat)) : Prop :=
  ∀ k v, m.lookup k = some v → ∀ w, h0.websites k = some w →
    ∃ d, h.websites v = some { name := w.name, username := w.username, dataRef := d }
      ∧ m.lookup w.dataRef = some d

namespace WebsitePool

theorem contains_site_eq_false (p : WebsitePool) (w : Website)
    (h : p.contains_site w = false) : ∀ m ∈ p.sites, m.weq w = false := by
  intro m hm
  by_contra hne
  have : p.contains_site w = true := by
    simp only [contains_site, List.any_eq_true]
    exact ⟨m, hm, by simpa using hne⟩
  simp [this] at h

theorem dupFree_add (p : WebsitePool) (v : PyVal) (h : dupFree p) :
    dupFree (p.add v).1 := by
  cases v with
  | website w =>
      by_cases hif : (!p.allow_duplicates && p.contains_site w) = true
      · simpa [add, hif] using h
      · have hne : (!p.allow_duplicates && p.contains_site w) = false := by
          simpa using hif
        intro hdup
        have hsites : (p.add (PyVal.website w)).1.sites = p.sites ++ [w] := by
          simp [add, hne]
        have hflag : (p.add (PyVal.website w)).1.allow_duplicates = p.allow_duplicates := by
          simp [add, hne]
        have hdup0 : p.allow_duplicates = false := by
          rw [← hflag]; exact hdup
        have hcon : p.contains_site w = false := by
          rw [hdup0] at hne
          simpa using hne
        rw [hsites]
        refine List.pairwise_append.mpr ⟨h hdup0, List.pairwise_singleton _ _, ?_⟩
        intro a ha b hb
        rw [List.mem_singleton] at hb
        rw [hb]
        exact contains_site_eq_false p w hcon a ha
  | str s => exact h
  | pynone => exact h
  | int n => exact h
  | pool q => exact h

theorem dupFree_foldl_add (f : Website → Website) :
    ∀ (l : List Website) (p : WebsitePool), dupFree p →
      dupFree (l.foldl (fun acc site => (acc.add (PyVal.website (f site))).1) p)
  | [], p, h => h
  | s :: rest, p, h => by
      simpa using dupFree_foldl_add f rest _ (dupFree_add p (PyVal.website (f s)) h)

theorem dupFree_addAll :
    ∀ (l : List PyVal) (p p1 : WebsitePool),
      addAll p l = Except.ok p1 → dupFree p → dupFree p1
  | [], p, p1, heq, h => by
      simp only [addAll] at heq
      cases heq
      exact h
  | v :: rest, p, p1, heq, h => by
      simp only [addAll] at heq
      rcases hv : p.add v with ⟨p2, e⟩
      rw [hv] at heq
      cases e with
      | some msg => simp at heq
      | none =>
          have h2 : dupFree p2 := by
            have := dupFree_add p v h
            rwa [hv] at this
          exact dupFree_addAll rest p2 p1 heq h2

end WebsitePool

/-- C3: for every pool and value, `add` raises a `TypeError` exactly on
non-`Website` arguments; under the reject policy a duplicate `add` is a
silent no-op that leaves the pool unchanged; otherwise the site is appended
at the end and the length grows by one. -/
theorem claim3_add_spec (p : WebsitePool) (v : PyVal) :
    ((∀ w, v ≠ PyVal.website w) → p.add v = (p, some (typeErrMsg "tracer.Website" v)))
    ∧ (∀ w, v = PyVal.website w → p.allow_duplicates = false → p.contains_site w = true →
        p.add v = (p, none))
    ∧ (∀ w, v = PyVal.website w → (p.allow_duplicates = true ∨ p.contains_site w = false) →
        (p.add v).2 = none ∧ (p.add v).1.sites = p.sites ++ [w] ∧
        (p.add v).1.len = p.len + 1) := by
  refine ⟨?_, ?_, ?_⟩
  · intro h
    cases v with
    | website w => exact absurd rfl (h w)
    | str s => rfl
    | pynone => rfl
    | int n => rfl
    | pool q => rfl
  · rintro w rfl hdup hc
    simp [WebsitePool.add, hdup, hc]
  · rintro w rfl hor
    rcases hor with h | h <;>
      simp [WebsitePool.add, h, WebsitePool.len]

/-- Witness for C3: a fresh site is appended (length 0 becomes 1), and a
non-`Website` argument raises with the pool unchanged. -/
theorem claim3_add_spec_witness :
    (WebsitePool.add { sites := [], name := "P", allow_duplicates := false }
      (PyVal.website { name := "a", username := "u", result := none })).1.len =
      ({ sites := [], name := "P", allow_duplicates := false } : WebsitePool).len + 1
    ∧ WebsitePool.add { sites := [], name := "P", allow_duplicates := false } (PyVal.int 3) =
      ({ sites := [], name := "P", allow_duplicates := false }, some (typeErrMsg "tracer.Website" (PyVal.int 3))) := by
  constructor
  · exact ((claim3_add_spec _ _).2.2 _ rfl (Or.inr (by decide))).2.2
  · exact (claim3_add_spec _ _).1 (by intro w h; cases h)

/-- C4: `remove` keeps exactly the targets on which the predicate is false,
in their original relative order, the predicate being evaluated on the
pre-removal snapshot; consequently `get` with the same predicate right
after `remove` returns the empty sequence. -/
theorem claim4_remove_get (p : WebsitePool) (f : Website → Bool) :
    (p.remove f).sites = p.sites.filter (fun w => !f w)
    ∧ (p.remove f).get f = [] := by
  refine ⟨rfl, ?_⟩
  simp only [WebsitePool.get, WebsitePool.remove, List.filter_filter]
  apply List.filter_eq_nil_iff.mpr
  intro a _
  cases f a <;> simp

/-- C5: under the reject duplicate policy no two sites of the sequence are
equal per Probe Target equality, and this invariant is preserved by
construction with initial targets, `add`, `extend` (with or without deep
copy) and `remove`. -/
theorem claim5_dupFree_invariant (p q : WebsitePool) (v : PyVal) (f : Website → Bool)
    (dc : Bool) (sts : List PyVal) (nm : PyVal) (p0 : WebsitePool)
    (hp : p.dupFree) :
    (p.add v).1.dupFree
    ∧ (p.extend (PyVal.pool q) dc).1.dupFree
    ∧ (p.remove f).dupFree
    ∧ (WebsitePool.init sts nm false = Except.ok p0 → p0.dupFree) := by
  refine ⟨WebsitePool.dupFree_add p v hp, ?_, ?_, ?_⟩
  · have := WebsitePool.dupFree_foldl_add
      (fun site => if dc then site.deepcopyVal else site) q.sites p hp
    simpa [WebsitePool.extend] using this
  · intro hdup
    simp only [WebsitePool.remove]
    exact List.Pairwise.sublist (List.filter_sublist _) (hp hdup)
  · intro heq
    simp only [WebsitePool.init] at heq
    cases nm with
    | str s =>
        exact WebsitePool.dupFree_addAll sts _ p0 heq (by intro _; exact List.Pairwise.nil)
    | pynone => simp [WebsitePool.set_name] at heq
    | int n => simp [WebsitePool.set_name] at heq
    | website w => simp [WebsitePool.set_name] at heq
    | pool r => simp [WebsitePool.set_name] at heq

/-- Witness for C5: the invariant instantiated on a concrete two-site pool,
a one-site second pool and a concrete construction. -/
theorem claim5_dupFree_invariant_witness :
    (WebsitePool.add
        { sites := [{ name := "a", username := "u", result := none }],
          name := "P", allow_duplicates := false }
        (PyVal.website { name := "a", username := "x", result := none })).1.dupFree
    ∧ (WebsitePool.extend
        { sites := [{ name := "a", username := "u", result := none }],
          name := "P", allow_duplicates := false }
        (PyVal.pool { sites := [{ name := "b", username := "u", result := none }],
                      name := "Q", allow_duplicates := false }) true).1.dupFree
    ∧ (WebsitePool.remove
        { sites := [{ name := "a", username := "u", result := none }],
          name := "P", allow_duplicates := false }
        (fun w => w.name == "a")).dupFree
    ∧ (WebsitePool.init [PyVal.website { name := "a", username := "u", result := none }]
          (PyVal.str "P") false =
        Except.ok { sites := [{ name := "a", username := "u", result := none }],
                    name := "P", allow_duplicates := false } →
        WebsitePool.dupFree
          { sites := [{ name := "a", username := "u", result := none }],
            name := "P", allow_duplicates := false }) :=
  claim5_dupFree_invariant _ _ _ _ _ _ _ _
    (by intro _; exact List.pairwise_singleton _ _)

/-- C6: every typed mutating operation (`add`, `extend`, `set_username`,
`set_name`) raises a `TypeError` synchronously on a wrong-kind argument and
leaves the pool — its site sequence, the sites themselves and its name —
unchanged. -/
theorem claim6_typeerror_unchanged (p : WebsitePool) (v : PyVal) (dc : Bool) :
    ((∀ w, v ≠ PyVal.website w) → ∃ e, p.add v = (p, some e))
    ∧ ((∀ q, v ≠ PyVal.pool q) → ∃ e, p.extend v dc = (p, some e))
    ∧ ((∀ s, v ≠ PyVal.str s) →
        (∃ e, p.set_username v = (p, some e)) ∧ (∃ e, p.set_name v = (p, some e))) := by
  refine ⟨?_, ?_, ?_⟩
  · intro h
    cases v with
    | website w => exact absurd rfl (h w)
    | str s => exact ⟨_, rfl⟩
    | pynone => exact ⟨_, rfl⟩
    | int n => exact ⟨_, rfl⟩
    | pool q => exact ⟨_, rfl⟩
  · intro h
    cases v with
    | pool q => exact absurd rfl (h q)
    | str s => exact ⟨_, rfl⟩
    | pynone => exact ⟨_, rfl⟩
    | int n => exact ⟨_, rfl⟩
    | website w => exact ⟨_, rfl⟩
  · intro h
    cases v with
    | str s => exact absurd rfl (h s)
    | pynone => exact ⟨⟨_, rfl⟩, ⟨_, rfl⟩⟩
    | int n => exact ⟨⟨_, rfl⟩, ⟨_, rfl⟩⟩
    | website w => exact ⟨⟨_, rfl⟩, ⟨_, rfl⟩⟩
    | pool q => exact ⟨⟨_, rfl⟩, ⟨_, rfl⟩⟩

/-- Witness for C6: with an `int` argument all four mutators raise and
return the receiver unchanged. -/
theorem claim6_typeerror_unchanged_witness :
    (∃ e, WebsitePool.add
        { sites := [], name := "P", allow_duplicates := false } (PyVal.int 7) =
        ({ sites := [], name := "P", allow_duplicates := false }, some e))
    ∧ (∃ e, WebsitePool.extend
        { sites := [], name := "P", allow_duplicates := false } (PyVal.int 7) true =
        ({ sites := [], name := "P", allow_duplicates := false }, some e))
    ∧ ((∃ e, WebsitePool.set_username
          { sites := [], name := "P", allow_duplicates := false } (PyVal.int 7) =
          ({ sites := [], name := "P", allow_duplicates := false }, some e))
        ∧ (∃ e, WebsitePool.set_name
          { sites := [], name := "P", allow_duplicates := false } (PyVal.int 7) =
          ({ sites := [], name := "P", allow_duplicates := false }, some e))) := by
  obtain ⟨h1, h2, h3⟩ :=
    claim6_typeerror_unchanged { sites := [], name := "P", allow_duplicates := false }
      (PyVal.int 7) true
  exact ⟨h1 (by intro w h; cases h), h2 (by intro q h; cases h), h3 (by intro s h; cases h)⟩

/-- C7 (code bug): constructing a pool without a name — the declared default
is `name=None` — raises a `TypeError`, because `__init__` unconditionally
calls `set_name`, which rejects every non-`str` value including `None`,
although the signature, the docstring and the `name` property all declare
the name optional. -/
theorem claim7_init_default_name_raises :
    WebsitePool.init [] PyVal.pynone false =
      Except.error (typeErrMsg "str" PyVal.pynone) := rfl

/-- C10: the membership test never raises: a non-`Website` value is simply
reported absent, and a `Website` is a member iff it is equal — per Probe
Target identity equality, not object identity — to some site of the pool. -/
theorem claim10_contains_spec (p : WebsitePool) (v : PyVal) :
    ((∀ w, v ≠ PyVal.website w) → p.contains v = false)
    ∧ (∀ w, v = PyVal.website w →
        (p.contains v = true ↔ ∃ m ∈ p.sites, m.weq w = true)) := by
  constructor
  · intro h
    cases v with
    | website w => exact absurd rfl (h w)
    | str s => rfl
    | pynone => rfl
    | int n => rfl
    | pool q => rfl
  · rintro w rfl
    simp [WebsitePool.contains, WebsitePool.contains_site, List.any_eq_true]

/-- Witness for C10: a `str` value is not a member, and a website differing
from a member only in its mutable username is reported present. -/
theorem claim10_contains_spec_witness :
    WebsitePool.contains
      { sites := [{ name := "a", username := "u", result := none }],
        name := "P", allow_duplicates := false } (PyVal.str "a") = false
    ∧ (WebsitePool.contains
        { sites := [{ name := "a", username := "u", result := none }],
          name := "P", allow_duplicates := false }
        (PyVal.website { name := "a", username := "other", result := none }) = true ↔
        ∃ m ∈ [({ name := "a", username := "u", result := none } : Website)],
          m.weq { name := "a", username := "other", result := none } = true) := by
  obtain ⟨h1, h2⟩ :=
    claim10_contains_spec
      { sites := [{ name := "a", username := "u", result := none }],
        name := "P", allow_duplicates := false } (PyVal.str "a")
  refine ⟨h1 (by intro w h; cases h), ?_⟩
  exact (claim10_contains_spec
      { sites := [{ name := "a", username := "u", result := none }],
        name := "P", allow_duplicates := false }
      (PyVal.website { name := "a", username := "other", result := none })).2 _ rfl

theorem dispatch_fold_inv (outcomes : List SendOutcome) (n : Nat) :
    ∀ (evs : List DispatchEv) (s : DispatchState) (done : List Nat),
      s.completed = done →
      s.yielded ++ s.queue = enqueuedOf outcomes done →
      (s.finished = true → s.queue = [] ∧ ∀ i < n, i ∈ done) →
      (done ++ completesOf evs).Nodup →
      (∀ i ∈ completesOf evs, i < n) →
      (evs.foldl (dispatchStep outcomes n) s).completed = done ++ completesOf evs
      ∧ (evs.foldl (dispatchStep outcomes n) s).yielded
          ++ (evs.foldl (dispatchStep outcomes n) s).queue
          = enqueuedOf outcomes (done ++ completesOf evs)
      ∧ ((evs.foldl (dispatchStep outcomes n) s).finished = true →
          (evs.foldl (dispatchStep outcomes n) s).queue = []
          ∧ ∀ i < n, i ∈ done ++ completesOf evs)
  | [], s, done, hc, hq, hf, _, _ => by
      simp only [List.foldl_nil, completesOf, List.filterMap_nil, List.append_nil]
      exact ⟨hc, hq, hf⟩
  | DispatchEv.poll :: rest, s, done, hc, hq, hf, hnd, hlt => by
      have hco : completesOf (DispatchEv.poll :: rest) = completesOf rest := by
        simp [completesOf]
      rw [hco] at hnd hlt ⊢
      rw [List.foldl_cons]
      by_cases hfin : s.finished = true
      · have hstep : dispatchStep outcomes n s DispatchEv.poll = s := by
          simp [dispatchStep, hfin]
        rw [hstep]
        exact dispatch_fold_inv outcomes n rest s done hc hq hf hnd hlt
      · have hfin' : s.finished = false := by simpa using hfin
        by_cases hexit : (s.queue.isEmpty && allDone n s.completed) = true
        · have hstep : dispatchStep outcomes n s DispatchEv.poll = { s with finished := true } := by
            simp [dispatchStep, hfin', hexit]
          rw [hstep]
          refine dispatch_fold_inv outcomes n rest _ done hc hq ?_ hnd hlt
          intro _
          rcases Bool.and_eq_true_iff.mp hexit with ⟨hqe, hall⟩
          constructor
          · exact List.isEmpty_iff.mp hqe
          · intro i hi
            rw [← hc]
            have := List.all_eq_true.mp hall i (List.mem_range.mpr hi)
            exact List.elem_iff.mp this
        · cases hqq : s.queue with
          | nil =>
              have hall : allDone n s.completed = false := by
                by_contra hcontra
                have hcontra : allDone n s.completed = true := by simpa using hcontra
                exact hexit (by simp [hqq, hcontra])
              have hstep : dispatchStep outcomes n s DispatchEv.poll = s := by
                simp [dispatchStep, hfin', hqq, hall, queueGet]
              rw [hstep]
              exact dispatch_fold_inv outcomes n rest s done hc hq hf hnd hlt
          | cons r rs =>
              have hstep : dispatchStep outcomes n s DispatchEv.poll
                  = { s with queue := rs, yielded := s.yielded ++ [r] } := by
                simp [dispatchStep, hfin', hexit, queueGet, hqq]
              rw [hstep]
              refine dispatch_fold_inv outcomes n rest _ done hc ?_ ?_ hnd hlt
              · rw [← hq, hqq]
                simp
              · intro hcontra
                simp [hfin'] at hcontra
  | DispatchEv.complete i :: rest, s, done, hc, hq, hf, hnd, hlt => by
      have hco : completesOf (DispatchEv.complete i :: rest) = i :: completesOf rest := by
        simp [completesOf]
      rw [hco] at hnd hlt ⊢
      have hin : i < n := hlt i (by simp)
      have hfin' : s.finished = false := by
        by_contra hfin
        have hfin : s.finished = true := by simpa using hfin
        have hmem : i ∈ done := (hf hfin).2 i hin
        have : ¬ (done ++ i :: completesOf rest).Nodup := by
          intro hnodup
          have hdisj := List.disjoint_of_nodup_append hnodup
          exact hdisj hmem (by simp)
        exact this hnd
      rw [List.foldl_cons]
      have hassoc : done ++ i :: completesOf rest = (done ++ [i]) ++ completesOf rest := by
        simp
      rw [hassoc] at hnd ⊢
      have henq : enqueuedOf outcomes (done ++ [i])
          = enqueuedOf outcomes done ++ enqueuedOf outcomes [i] := by
        simp [enqueuedOf]
      cases hout : outcomes[i]?.bind SendOutcome.emitted with
      | some r =>
          have hstep : dispatchStep outcomes n s (DispatchEv.complete i)
              = { s with queue := s.queue ++ [r], completed := s.completed ++ [i] } := by
            simp [dispatchStep, hfin', hout]
          rw [hstep]
          refine dispatch_fold_inv outcomes n rest _ (done ++ [i]) ?_ ?_ ?_ hnd
            (fun j hj => hlt j (by simp [hj]))
          · simp [hc]
          · rw [henq]
            simp only [enqueuedOf, List.filterMap_cons, List.filterMap_nil, hout]
            rw [← List.append_assoc, hq]
            simp [enqueuedOf]
          · intro hcontra
            simp [hfin'] at hcontra
      | none =>
          have hstep : dispatchStep outcomes n s (DispatchEv.complete i)
              = { s with completed := s.completed ++ [i] } := by
            simp [dispatchStep, hfin', hout]
          rw [hstep]
          refine dispatch_fold_inv outcomes n rest _ (done ++ [i]) ?_ ?_ ?_ hnd
            (fun j hj => hlt j (by simp [hj]))
          · simp [hc]
          · rw [henq]
            simp only [enqueuedOf, List.filterMap_cons, List.filterMap_nil, hout]
            simpa using hq
          · intro hcontra
            simp [hfin'] at hcontra

theorem pollRepeat_of_finished (outcomes : List SendOutcome) (n : Nat) :
    ∀ (fuel : Nat) (s : DispatchState), s.finished = true →
      pollRepeat outcomes n fuel s = s
  | 0, s, _ => rfl
  | fuel + 1, s, hfin => by
      have hstep : dispatchStep outcomes n s DispatchEv.poll = s := by
        simp [dispatchStep, hfin]
      simp only [pollRepeat, hstep]
      exact pollRepeat_of_finished outcomes n fuel s hfin

theorem pollRepeat_drains (outcomes : List SendOutcome) (n : Nat) :
    ∀ (fuel : Nat) (s : DispatchState),
      s.queue.length < fuel →
      allDone n s.completed = true →
      (s.finished = true → s.queue = []) →
      (pollRepeat outcomes n fuel s).finished = true
      ∧ (pollRepeat outcomes n fuel s).queue = []
      ∧ (pollRepeat outcomes n fuel s).yielded = s.yielded ++ s.queue
      ∧ (pollRepeat outcomes n fuel s).completed = s.completed
  | 0, s, hfuel, _, _ => absurd hfuel (Nat.not_lt_zero _)
  | fuel + 1, s, hfuel, hall, hfq => by
      by_cases hfin : s.finished = true
      · rw [pollRepeat_of_finished outcomes n (fuel + 1) s hfin]
        have hq := hfq hfin
        exact ⟨hfin, hq, by simp [hq], rfl⟩
      · have hfin' : s.finished = false := by simpa using hfin
        cases hqq : s.queue with
        | nil =>
            have hstep : dispatchStep outcomes n s DispatchEv.poll
                = { s with finished := true } := by
              simp [dispatchStep, hfin', hqq, hall]
            simp only [pollRepeat, hstep]
            rw [pollRepeat_of_finished outcomes n fuel _ rfl]
            exact ⟨rfl, hqq, by simp [hqq], rfl⟩
        | cons r rs =>
            have hstep : dispatchStep outcomes n s DispatchEv.poll
                = { s with queue := rs, yielded := s.yielded ++ [r] } := by
              simp [dispatchStep, hfin', hqq, queueGet]
            simp only [pollRepeat, hstep]
            have hrec := pollRepeat_drains outcomes n fuel
              { s with queue := rs, yielded := s.yielded ++ [r] }
              (by
                simp only []
                have : s.queue.length = rs.length + 1 := by rw [hqq]; rfl
                omega)
              (by simpa using hall)
              (by intro hcontra; simp [hfin'] at hcontra)
            refine ⟨hrec.1, hrec.2.1, ?_, hrec.2.2.2⟩
            rw [hrec.2.2.1]
            simp

theorem runDispatch_spec (outcomes : List SendOutcome) (n : Nat)
    (evs : List DispatchEv) (hv : ValidSchedule n evs) :
    (runDispatch outcomes n evs).finished = true
    ∧ (runDispatch outcomes n evs).queue = []
    ∧ (runDispatch outcomes n evs).yielded = enqueuedOf outcomes (completesOf evs) := by
  have hnd : (([] : List Nat) ++ completesOf evs).Nodup := by
    simpa using hv.symm.nodup (List.nodup_range n)
  have hlt : ∀ i ∈ completesOf evs, i < n := by
    intro i hi
    exact List.mem_range.mp (hv.mem_iff.mp hi)
  have hinv := dispatch_fold_inv outcomes n evs initDispatch []
    rfl (by simp [enqueuedOf, initDispatch]) (by intro h; simp [initDispatch] at h)
    hnd hlt
  set s1 := evs.foldl (dispatchStep outcomes n) initDispatch with hs1
  have hall : allDone n s1.completed = true := by
    rw [hinv.1]
    apply List.all_eq_true.mpr
    intro i hi
    apply List.elem_iff.mpr
    simp only [List.nil_append]
    exact hv.symm.mem_iff.mp hi
  have hdrain := pollRepeat_drains outcomes n (s1.queue.length + 1) s1
    (Nat.lt_succ_self _) hall (fun hfin => (hinv.2.2 hfin).1)
  have hrun : runDispatch outcomes n evs
      = pollRepeat outcomes n (s1.queue.length + 1) s1 := rfl
  rw [hrun]
  refine ⟨hdrain.1, hdrain.2.1, ?_⟩
  rw [hdrain.2.2.1]
  simpa using hinv.2.1

theorem enqueuedOf_range : ∀ (outcomes : List SendOutcome),
    enqueuedOf outcomes (List.range outcomes.length)
      = outcomes.filterMap SendOutcome.emitted
  | [] => rfl
  | o :: os => by
      rw [List.length_cons, List.range_succ_eq_map]
      simp only [enqueuedOf, List.filterMap_cons]
      have hhead : (o :: os)[0]?.bind SendOutcome.emitted = SendOutcome.emitted o := by
        simp
      rw [hhead]
      have htail : List.filterMap (fun i => (o :: os)[i]?.bind SendOutcome.emitted)
          ((List.range os.length).map Nat.succ)
          = List.filterMap (fun i => os[i]?.bind SendOutcome.emitted)
              (List.range os.length) := by
        rw [List.filterMap_map]
        apply List.filterMap_congr
        intro i _
        simp [Function.comp]
      cases hemit : SendOutcome.emitted o with
      | some r =>
          rw [htail]
          have := enqueuedOf_range os
          simp only [enqueuedOf] at this
          rw [this]
      | none =>
          rw [htail]
          have := enqueuedOf_range os
          simp only [enqueuedOf] at this
          rw [this]

theorem emitted_names_of_success (outcomes : List SendOutcome) (sites : List Website)
    (h : List.Forall₂
      (fun o w => ∃ r, o = SendOutcome.success r ∧ r.name = w.name) outcomes sites) :
    (outcomes.filterMap SendOutcome.emitted).map Result.name
      = sites.map Website.name := by
  induction h with
  | nil => rfl
  | cons hpair _ ih =>
      obtain ⟨r, rfl, hn⟩ := hpair
      simp [SendOutcome.emitted, hn, ih]

theorem length_filterMap_emitted_add_faults : ∀ (l : List SendOutcome),
    (l.filterMap SendOutcome.emitted).length
      + l.countP (fun o => (SendOutcome.emitted o).isNone) = l.length
  | [] => rfl
  | o :: l => by
      have ih := length_filterMap_emitted_add_faults l
      cases ho : SendOutcome.emitted o with
      | some r =>
          simp [List.filterMap_cons, ho, List.countP_cons]
          omega
      | none =>
          simp [List.filterMap_cons, ho, List.countP_cons]
          omega

/-- C1: on a pool of `N` targets whose probes all succeed — each invokes the
result callback exactly once, with a `Result` carrying its target's
identity — any fair run of the generator returned by `start_requests`
reaches the exhausted state having yielded exactly `N` Results, the set of
identities of the yielded Results equals the set of identities of the
pool's members at dispatch time, and on an empty pool it yields nothing. -/
theorem claim1_dispatch_all_success (p : WebsitePool) (outcomes : List SendOutcome)
    (evs : List DispatchEv)
    (hv : ValidSchedule p.len evs)
    (hsucc : List.Forall₂
      (fun o w => ∃ r, o = SendOutcome.success r ∧ r.name = w.name) outcomes p.sites) :
    (runDispatch outcomes p.len evs).finished = true
    ∧ (runDispatch outcomes p.len evs).yielded.length = p.len
    ∧ ((runDispatch outcomes p.len evs).yielded.map Result.name).toFinset
        = (p.sites.map Website.name).toFinset
    ∧ (p.sites = [] → (runDispatch outcomes p.len evs).yielded = []) := by
  have hlen : outcomes.length = p.len := hsucc.length_eq
  obtain ⟨hfin, hque, hyld⟩ := runDispatch_spec outcomes p.len evs hv
  have hv' : (completesOf evs).Perm (List.range outcomes.length) := by
    rw [hlen]; exact hv
  have hperm : (runDispatch outcomes p.len evs).yielded.Perm
      (outcomes.filterMap SendOutcome.emitted) := by
    rw [hyld, ← enqueuedOf_range outcomes]
    exact hv'.filterMap _
  have hnames : (outcomes.filterMap SendOutcome.emitted).map Result.name
      = p.sites.map Website.name :=
    emitted_names_of_success outcomes p.sites hsucc
  have hlen2 : (runDispatch outcomes p.len evs).yielded.length = p.len := by
    rw [hperm.length_eq]
    have := congrArg List.length hnames
    simpa [WebsitePool.len] using this
  refine ⟨hfin, hlen2, ?_, ?_⟩
  · rw [← hnames]
    exact List.toFinset_eq_of_perm _ _ (hperm.map Result.name)
  · intro hnil
    have : (runDispatch outcomes p.len evs).yielded.length = 0 := by
      rw [hlen2]
      simp [WebsitePool.len, hnil]
    exact List.length_eq_zero.mp this

/-- Witness for C1: a concrete two-site pool whose probes both succeed,
under a schedule where the second site completes first; the run yields two
Results and their identity set is that of the pool. -/
theorem claim1_dispatch_all_success_witness :
    (runDispatch
        [SendOutcome.success { name := "a", status := "found", payload := none },
         SendOutcome.success { name := "b", status := "not-found", payload := none }]
        (WebsitePool.len { sites := [{ name := "a", username := "u", result := none },
                                     { name := "b", username := "u", result := none }],
                           name := "P", allow_duplicates := false })
        [DispatchEv.poll, DispatchEv.complete 1, DispatchEv.poll,
         DispatchEv.complete 0, DispatchEv.poll]).finished = true
    ∧ (runDispatch
        [SendOutcome.success { name := "a", status := "found", payload := none },
         SendOutcome.success { name := "b", status := "not-found", payload := none }]
        (WebsitePool.len { sites := [{ name := "a", username := "u", result := none },
                                     { name := "b", username := "u", result := none }],
                           name := "P", allow_duplicates := false })
        [DispatchEv.poll, DispatchEv.complete 1, DispatchEv.poll,
         DispatchEv.complete 0, DispatchEv.poll]).yielded.length
      = WebsitePool.len { sites := [{ name := "a", username := "u", result := none },
                                    { name := "b", username := "u", result := none }],
                          name := "P", allow_duplicates := false }
    ∧ ((runDispatch
        [SendOutcome.success { name := "a", status := "found", payload := none },
         SendOutcome.success { name := "b", status := "not-found", payload := none }]
        (WebsitePool.len { sites := [{ name := "a", username := "u", result := none },
                                     { name := "b", username := "u", result := none }],
                           name := "P", allow_duplicates := false })
        [DispatchEv.poll, DispatchEv.complete 1, DispatchEv.poll,
         DispatchEv.complete 0, DispatchEv.poll]).yielded.map Result.name).toFinset
      = (([{ name := "a", username := "u", result := none },
           { name := "b", username := "u", result := none }] : List Website).map
            Website.name).toFinset
    ∧ (([{ name := "a", username := "u", result := none },
         { name := "b", username := "u", result := none }] : List Website) = [] →
        (runDispatch
        [SendOutcome.success { name := "a", status := "found", payload := none },
         SendOutcome.success { name := "b", status := "not-found", payload := none }]
        (WebsitePool.len { sites := [{ name := "a", username := "u", result := none },
                                     { name := "b", username := "u", result := none }],
                           name := "P", allow_duplicates := false })
        [DispatchEv.poll, DispatchEv.complete 1, DispatchEv.poll,
         DispatchEv.complete 0, DispatchEv.poll]).yielded = []) :=
  claim1_dispatch_all_success
    { sites := [{ name := "a", username := "u", result := none },
                { name := "b", username := "u", result := none }],
      name := "P", allow_duplicates := false }
    [SendOutcome.success { name := "a", status := "found", payload := none },
     SendOutcome.success { name := "b", status := "not-found", payload := none }]
    [DispatchEv.poll, DispatchEv.complete 1, DispatchEv.poll,
     DispatchEv.complete 0, DispatchEv.poll]
    (by unfold ValidSchedule; decide)
    (List.Forall₂.cons ⟨_, rfl, rfl⟩ (List.Forall₂.cons ⟨_, rfl, rfl⟩ List.Forall₂.nil))

/-- C2: dispatch never surfaces an individual probe failure: a faulting
probe never calls its callback, so no Result is yielded for it; the fault
and every expiry of the internal 250 ms polling wait are swallowed inside
the loop (the bare `except` of lines 312-314), and any fair run still
reaches the exhausted state — the generator stops producing exactly when
every probe is done and the aggregation channel is empty, yielding
precisely the Results of the non-faulting probes. -/
theorem claim2_dispatch_fault_swallowed (p : WebsitePool) (outcomes : List SendOutcome)
    (evs : List DispatchEv)
    (hlen : outcomes.length = p.len)
    (hv : ValidSchedule p.len evs) :
    (runDispatch outcomes p.len evs).finished = true
    ∧ (runDispatch outcomes p.len evs).queue = []
    ∧ (runDispatch outcomes p.len evs).yielded.Perm
        (outcomes.filterMap SendOutcome.emitted)
    ∧ (runDispatch outcomes p.len evs).yielded.length
        + outcomes.countP (fun o => (SendOutcome.emitted o).isNone) = p.len := by
  obtain ⟨hfin, hque, hyld⟩ := runDispatch_spec outcomes p.len evs hv
  have hv' : (completesOf evs).Perm (List.range outcomes.length) := by
    rw [hlen]; exact hv
  have hperm : (runDispatch outcomes p.len evs).yielded.Perm
      (outcomes.filterMap SendOutcome.emitted) := by
    rw [hyld, ← enqueuedOf_range outcomes]
    exact hv'.filterMap _
  refine ⟨hfin, hque, hperm, ?_⟩
  rw [hperm.length_eq, length_filterMap_emitted_add_faults, hlen]

/-- Witness for C2: a two-site pool where the first probe faults and the
second succeeds; the run terminates cleanly with one yielded Result plus
one swallowed fault. -/
theorem claim2_dispatch_fault_swallowed_witness :
    (runDispatch
        [SendOutcome.fault "connection reset",
         SendOutcome.success { name := "b", status := "found", payload := none }]
        (WebsitePool.len { sites := [{ name := "a", username := "u", result := none },
                                     { name := "b", username := "u", result := none }],
                           name := "P", allow_duplicates := false })
        [DispatchEv.complete 0, DispatchEv.poll, DispatchEv.complete 1,
         DispatchEv.poll]).finished = true
    ∧ (runDispatch
        [SendOutcome.fault "connection reset",
         SendOutcome.success { name := "b", status := "found", payload := none }]
        (WebsitePool.len { sites := [{ name := "a", username := "u", result := none },
                                     { name := "b", username := "u", result := none }],
                           name := "P", allow_duplicates := false })
        [DispatchEv.complete 0, DispatchEv.poll, DispatchEv.complete 1,
         DispatchEv.poll]).queue = []
    ∧ (runDispatch
        [SendOutcome.fault "connection reset",
         SendOutcome.success { name := "b", status := "found", payload := none }]
        (WebsitePool.len { sites := [{ name := "a", username := "u", result := none },
                                     { name := "b", username := "u", result := none }],
                           name := "P", allow_duplicates := false })
        [DispatchEv.complete 0, DispatchEv.poll, DispatchEv.complete 1,
         DispatchEv.poll]).yielded.Perm
        (([SendOutcome.fault "connection reset",
           SendOutcome.success { name := "b", status := "found", payload := none }]).filterMap
          SendOutcome.emitted)
    ∧ (runDispatch
        [SendOutcome.fault "connection reset",
         SendOutcome.success { name := "b", status := "found", payload := none }]
        (WebsitePool.len { sites := [{ name := "a", username := "u", result := none },
                                     { name := "b", username := "u", result := none }],
                           name := "P", allow_duplicates := false })
        [DispatchEv.complete 0, DispatchEv.poll, DispatchEv.complete 1,
         DispatchEv.poll]).yielded.length
        + ([SendOutcome.fault "connection reset",
            SendOutcome.success { name := "b", status := "found", payload := none }]).countP
            (fun o => (SendOutcome.emitted o).isNone)
      = WebsitePool.len { sites := [{ name := "a", username := "u", result := none },
                                    { name := "b", username := "u", result := none }],
                          name := "P", allow_duplicates := false } :=
  claim2_dispatch_fault_swallowed
    { sites := [{ name := "a", username := "u", result := none },
                { name := "b", username := "u", result := none }],
      name := "P", allow_duplicates := false }
    [SendOutcome.fault "connection reset",
     SendOutcome.success { name := "b", status := "found", payload := none }]
    [DispatchEv.complete 0, DispatchEv.poll, DispatchEv.complete 1, DispatchEv.poll]
    (by decide) (by unfold ValidSchedule; decide)

theorem lookup_cons_eq (m : List (Nat × Nat)) (k b : Nat) :
    ((k, b) :: m).lookup k = some b := by
  simp [List.lookup_cons]

theorem lookup_cons_ne (m : List (Nat × Nat)) (k b x : Nat) (hx : x ≠ k) :
    ((k, b) :: m).lookup x = m.lookup x := by
  have hb : (x == k) = false := by
    simp [hx]
  simp [List.lookup_cons, hb]

theorem lookup_prepend_stable (m : List (Nat × Nat)) (k b x v : Nat)
    (hk : m.lookup k = none) (hx : m.lookup x = some v) :
    ((k, b) :: m).lookup x = some v := by
  have hxk : x ≠ k := by
    rintro rfl
    rw [hx] at hk
    cases hk
  rw [lookup_cons_ne m k b x hxk, hx]

theorem updFn_same {α : Type} (f : Nat → Option α) (a : Nat) (v : α) :
    updFn f a v a = some v := by
  simp [updFn]

theorem updFn_other {α : Type} (f : Nat → Option α) (a x : Nat) (v : α) (hx : x ≠ a) :
    updFn f a v x = f x := by
  simp [updFn, hx]

theorem deepcopyData_spec (h0 h : Heap) (m : List (Nat × Nat)) (a : Nat)
    (hx : heapExtends h0 h) (hm : memoOk h0 h m) (hmc : memoCopies h0 h m)
    (hnw : h0.websites a = none) :
    heapExtends h0 (deepcopyData h m a).1
    ∧ h.nextAddr ≤ (deepcopyData h m a).1.nextAddr
    ∧ memoOk h0 (deepcopyData h m a).1 (deepcopyData h m a).2.1
    ∧ memoCopies h0 (deepcopyData h m a).1 (deepcopyData h m a).2.1
    ∧ (deepcopyData h m a).2.1.lookup a = some (deepcopyData h m a).2.2
    ∧ (∀ k v, m.lookup k = some v → (deepcopyData h m a).2.1.lookup k = some v)
    ∧ (∀ k, k ≠ a → (deepcopyData h m a).2.1.lookup k = m.lookup k)
    ∧ h0.nextAddr ≤ (deepcopyData h m a).2.2
    ∧ (deepcopyData h m a).2.2 < (deepcopyData h m a).1.nextAddr
    ∧ (∀ x, (deepcopyData h m a).1.websites x = h.websites x) := by
  obtain ⟨hx1, hx2, hx3, hx4⟩ := hx
  cases hl : m.lookup a with
  | some b =>
      have hres : deepcopyData h m a = (h, m, b) := by
        simp only [deepcopyData, hl]
      rw [hres]
      exact ⟨⟨hx1, hx2, hx3, hx4⟩, Nat.le_refl _, hm, hmc, hl, fun k v hk => hk,
        fun k _ => rfl, (hm a b hl).1, (hm a b hl).2, fun x => rfl⟩
  | none =>
      have hres : deepcopyData h m a =
          (Heap.mk (h.nextAddr + 1) h.lists h.websites
            (updFn h.datas h.nextAddr ((h.datas a).getD "")),
           (a, h.nextAddr) :: m, h.nextAddr) := by
        simp only [deepcopyData, hl]
      rw [hres]
      refine ⟨⟨?_, ?_, ?_, ?_⟩, ?_, ?_, ?_, ?_, ?_, ?_, ?_, ?_, ?_⟩
      · show h0.nextAddr ≤ h.nextAddr + 1
        omega
      · intro x hxlt
        exact hx2 x hxlt
      · intro x hxlt
        show updFn h.datas h.nextAddr ((h.datas a).getD "") x = h0.datas x
        rw [updFn_other h.datas h.nextAddr x _ (by omega)]
        exact hx3 x hxlt
      · exact hx4
      · show h.nextAddr ≤ h.nextAddr + 1
        omega
      · intro k v hk
        by_cases hka : k = a
        · subst hka
          rw [lookup_cons_eq] at hk
          cases hk
          exact ⟨hx1, Nat.lt_succ_self _⟩
        · rw [lookup_cons_ne m a h.nextAddr k hka] at hk
          have hkv := hm k v hk
          refine ⟨hkv.1, ?_⟩
          show v < h.nextAddr + 1
          omega
      · intro k v hk w hw
        by_cases hka : k = a
        · subst hka
          rw [hw] at hnw
          cases hnw
        · rw [lookup_cons_ne m a h.nextAddr k hka] at hk
          obtain ⟨d, hrec, hd⟩ := hmc k v hk w hw
          exact ⟨d, hrec, lookup_prepend_stable m a h.nextAddr w.dataRef d hl hd⟩
      · exact lookup_cons_eq m a h.nextAddr
      · intro k v hk
        exact lookup_prepend_stable m a h.nextAddr k v hl hk
      · intro k hka
        exact lookup_cons_ne m a h.nextAddr k hka
      · exact hx1
      · show h.nextAddr < h.nextAddr + 1
        omega
      · intro x
        rfl

theorem deepcopyData_spec_eq (h0 h : Heap) (m : List (Nat × Nat)) (a : Nat)
    (h1 : Heap) (m1 : List (Nat × Nat)) (d : Nat)
    (hx : heapExtends h0 h) (hm : memoOk h0 h m) (hmc : memoCopies h0 h m)
    (hnw : h0.websites a = none) (hdd : deepcopyData h m a = (h1, m1, d)) :
    heapExtends h0 h1
    ∧ h.nextAddr ≤ h1.nextAddr
    ∧ memoOk h0 h1 m1
    ∧ memoCopies h0 h1 m1
    ∧ m1.lookup a = some d
    ∧ (∀ k v, m.lookup k = some v → m1.lookup k = some v)
    ∧ (∀ k, k ≠ a → m1.lookup k = m.lookup k)
    ∧ h0.nextAddr ≤ d
    ∧ d < h1.nextAddr
    ∧ (∀ x, h1.websites x = h.websites x) := by
  have hspec := deepcopyData_spec h0 h m a hx hm hmc hnw
  rw [hdd] at hspec
  exact hspec

theorem deepcopyWebsite_spec (h0 h : Heap) (m : List (Nat × Nat)) (a : Nat)
    (h2 : Heap) (m2 : List (Nat × Nat)) (b : Nat)
    (hx : heapExtends h0 h) (hm : memoOk h0 h m) (hmc : memoCopies h0 h m)
    (ha : a < h0.nextAddr) (hsm : (h0.websites a).isSome)
    (hdn : h0.websites ((h0.websites a).getD dWeb).dataRef = none)
    (hdw : deepcopyWebsite h m a = (h2, m2, b)) :
    heapExtends h0 h2
    ∧ h.nextAddr ≤ h2.nextAddr
    ∧ memoOk h0 h2 m2
    ∧ memoCopies h0 h2 m2
    ∧ m2.lookup a = some b
    ∧ (∀ k v, m.lookup k = some v → m2.lookup k = some v)
    ∧ h0.nextAddr ≤ b
    ∧ b < h2.nextAddr := by
  obtain ⟨hx1, hx2, hx3, hx4⟩ := hx
  have hww : h.websites a = h0.websites a := hx2 a ha
  obtain ⟨wa, hwa⟩ := Option.isSome_iff_exists.mp hsm
  have hwa' : h.websites a = some wa := by rw [hww, hwa]
  have hgetd : (h.websites a).getD dWeb = wa := by rw [hwa']; rfl
  have hgetd0 : (h0.websites a).getD dWeb = wa := by rw [hwa]; rfl
  have hdn' : h0.websites wa.dataRef = none := by rw [← hgetd0]; exact hdn
  have hane : a ≠ wa.dataRef := by
    intro heq
    rw [← heq] at hdn'
    rw [hwa] at hdn'
    cases hdn'
  cases hl : m.lookup a with
  | some bb =>
      have hres : deepcopyWebsite h m a = (h, m, bb) := by
        simp only [deepcopyWebsite, hl]
      rw [hdw] at hres
      have hh2 : h2 = h := congrArg Prod.fst hres
      have hm2 : m2 = m := congrArg (fun t => t.2.1) hres
      have hb : b = bb := congrArg (fun t => t.2.2) hres
      rw [hh2, hm2, hb]
      exact ⟨⟨hx1, hx2, hx3, hx4⟩, Nat.le_refl _, hm, hmc, hl, fun k v hk => hk,
        (hm a bb hl).1, (hm a bb hl).2⟩
  | none =>
      rcases hdd : deepcopyData h m wa.dataRef with ⟨h1, m1, d⟩
      obtain ⟨⟨hd1, hd2, hd3, hd4⟩, hdmono, hdok, hdcp, hdlook, hdpres, hdfresh,
        hdlo, hdhi, hdweb⟩ :=
        deepcopyData_spec_eq h0 h m wa.dataRef h1 m1 d
          ⟨hx1, hx2, hx3, hx4⟩ hm hmc hdn' hdd
      have hres : deepcopyWebsite h m a =
          (Heap.mk (h1.nextAddr + 1) h1.lists
            (updFn h1.websites h1.nextAddr (HWebsite.mk wa.name wa.username d))
            h1.datas,
           (a, h1.nextAddr) :: m1, h1.nextAddr) := by
        simp only [deepcopyWebsite, hl, hgetd, hdd]
      rw [hdw] at hres
      have hh2 : h2 = Heap.mk (h1.nextAddr + 1) h1.lists
          (updFn h1.websites h1.nextAddr (HWebsite.mk wa.name wa.username d))
          h1.datas := congrArg Prod.fst hres
      have hm2 : m2 = (a, h1.nextAddr) :: m1 := congrArg (fun t => t.2.1) hres
      have hb : b = h1.nextAddr := congrArg (fun t => t.2.2) hres
      subst hh2
      subst hm2
      subst hb
      have hm1a : m1.lookup a = none := by
        rw [hdfresh a hane, hl]
      refine ⟨⟨?_, ?_, ?_, ?_⟩, ?_, ?_, ?_, ?_, ?_, ?_, ?_⟩
      · show h0.nextAddr ≤ h1.nextAddr + 1
        omega
      · intro x hxlt
        show updFn h1.websites h1.nextAddr (HWebsite.mk wa.name wa.username d) x
          = h0.websites x
        rw [updFn_other h1.websites h1.nextAddr x _ (by omega)]
        exact hd2 x hxlt
      · intro x hxlt
        exact hd3 x hxlt
      · exact hd4
      · show h.nextAddr ≤ h1.nextAddr + 1
        omega
      · intro k v hk
        by_cases hka : k = a
        · rw [hka] at hk
          rw [lookup_cons_eq] at hk
          cases hk
          refine ⟨hd1, ?_⟩
          show h1.nextAddr < h1.nextAddr + 1
          omega
        · rw [lookup_cons_ne m1 a h1.nextAddr k hka] at hk
          have hkv := hdok k v hk
          refine ⟨hkv.1, ?_⟩
          show v < h1.nextAddr + 1
          omega
      · intro k v hk w0 hw0
        by_cases hka : k = a
        · rw [hka] at hk hw0
          rw [lookup_cons_eq] at hk
          cases hk
          rw [hwa] at hw0
          cases hw0
          refine ⟨d, ?_, ?_⟩
          · show updFn h1.websites h1.nextAddr (HWebsite.mk wa.name wa.username d)
                h1.nextAddr = some (HWebsite.mk wa.name wa.username d)
            exact updFn_same h1.websites h1.nextAddr _
          · rw [lookup_cons_ne m1 a h1.nextAddr wa.dataRef (fun hcon => hane hcon.symm)]
            exact hdlook
        · rw [lookup_cons_ne m1 a h1.nextAddr k hka] at hk
          obtain ⟨d', hrec, hd'⟩ := hdcp k v hk w0 hw0
          refine ⟨d', ?_, ?_⟩
          · show updFn h1.websites h1.nextAddr (HWebsite.mk wa.name wa.username d) v
              = some (HWebsite.mk w0.name w0.username d')
            rw [updFn_other h1.websites h1.nextAddr v _ (by
              have hv2 := (hdok k v hk).2
              omega)]
            exact hrec
          · exact lookup_prepend_stable m1 a h1.nextAddr w0.dataRef d' hm1a hd'
      · exact lookup_cons_eq m1 a h1.nextAddr
      · intro k v hk
        exact lookup_prepend_stable m1 a h1.nextAddr k v hm1a (hdpres k v hk)
      · exact hd1
      · show h1.nextAddr < h1.nextAddr + 1
        omega

theorem deepcopySites_spec (h0 : Heap) :
    ∀ (as : List Nat) (h : Heap) (m : List (Nat × Nat)) (h2 : Heap)
      (m2 : List (Nat × Nat)) (bs : List Nat),
      heapExtends h0 h → memoOk h0 h m → memoCopies h0 h m →
      (∀ a ∈ as, a < h0.nextAddr ∧ (h0.websites a).isSome
        ∧ h0.websites ((h0.websites a).getD dWeb).dataRef = none) →
      deepcopySites h m as = (h2, m2, bs) →
      heapExtends h0 h2
      ∧ h.nextAddr ≤ h2.nextAddr
      ∧ memoOk h0 h2 m2
      ∧ memoCopies h0 h2 m2
      ∧ (∀ k v, m.lookup k = some v → m2.lookup k = some v)
      ∧ bs.length = as.length
      ∧ (∀ b ∈ bs, h0.nextAddr ≤ b ∧ b < h2.nextAddr)
      ∧ (∀ i, i < as.length → m2.lookup (as.getD i 0) = some (bs.getD i 0))
  | [], h, m, h2, m2, bs, hx, hm, hmc, _, heq => by
      have heq2 : deepcopySites h m [] = (h, m, ([] : List Nat)) := rfl
      rw [heq] at heq2
      have hh : h2 = h := congrArg Prod.fst heq2
      have hmm : m2 = m := congrArg (fun t => t.2.1) heq2
      have hbs : bs = ([] : List Nat) := congrArg (fun t => t.2.2) heq2
      rw [hh, hmm, hbs]
      refine ⟨hx, Nat.le_refl _, hm, hmc, fun k v hk => hk, rfl, ?_, ?_⟩
      · intro bb hbb
        cases hbb
      · intro i hi
        cases hi
  | a :: rest, h, m, h2, m2, bs, hx, hm, hmc, helem, heq => by
      rcases hW : deepcopyWebsite h m a with ⟨hA, mA, b⟩
      rcases hR : deepcopySites hA mA rest with ⟨hB, mB, bsB⟩
      have heq2 : deepcopySites h m (a :: rest) = (hB, mB, b :: bsB) := by
        simp only [deepcopySites, hW, hR]
      rw [heq] at heq2
      have hh : h2 = hB := congrArg Prod.fst heq2
      have hmm : m2 = mB := congrArg (fun t => t.2.1) heq2
      have hbs : bs = b :: bsB := congrArg (fun t => t.2.2) heq2
      rw [hh, hmm, hbs]
      have helema := helem a (by simp)
      obtain ⟨hWx, hWmono, hWok, hWcp, hWlook, hWpres, hWlo, hWhi⟩ :=
        deepcopyWebsite_spec h0 h m a hA mA b hx hm hmc
          helema.1 helema.2.1 helema.2.2 hW
      obtain ⟨hRx, hRmono, hRok, hRcp, hRpres, hRlen, hRb, hRidx⟩ :=
        deepcopySites_spec h0 rest hA mA hB mB bsB hWx hWok hWcp
          (fun x hxm => helem x (by simp [hxm])) hR
      refine ⟨hRx, Nat.le_trans hWmono hRmono, hRok, hRcp,
        fun k v hk => hRpres k v (hWpres k v hk), by simp [hRlen], ?_, ?_⟩
      · intro bb hbb
        rcases List.mem_cons.mp hbb with hbb | hbb
        · rw [hbb]
          exact ⟨hWlo, Nat.lt_of_lt_of_le hWhi hRmono⟩
        · exact hRb bb hbb
      · intro i hi
        cases i with
        | zero =>
            simp only [List.getD_cons_zero]
            exact hRpres a b hWlook
        | succ j =>
            simp only [List.getD_cons_succ]
            exact hRidx j (by simpa using hi)

theorem siteAddrs_setUsername (h : Heap) (p : HPool) (a : Nat) (u : String) :
    p.siteAddrs (setUsernameAt h a u) = p.siteAddrs h := by
  cases hw : h.websites a <;> simp [setUsernameAt, hw, HPool.siteAddrs]

theorem setUsernameAt_other (h : Heap) (a x : Nat) (u : String) (hx : x ≠ a) :
    (setUsernameAt h a u).websites x = h.websites x := by
  cases hw : h.websites a
  · simp [setUsernameAt, hw]
  · simp [setUsernameAt, hw, updFn, hx]

theorem setUsernameAt_same (h : Heap) (a : Nat) (u : String) (w : HWebsite)
    (hw : h.websites a = some w) :
    (setUsernameAt h a u).websites a = some { w with username := u } := by
  simp [setUsernameAt, hw, updFn]

/-- C9: deep copy yields a fully independent pool — mutating a target of the
copy is invisible through the original, mutating a target of the original
is invisible through the copy, and an object reachable from several targets
is shared in the copy rather than duplicated (one memo image) — whereas a
shallow copy shares the site list and the site objects, so mutating a
target through the copy IS visible through the original. -/
theorem claim9_copy_semantics (h : Heap) (p : HPool) (hwf : p.wf h) :
    (p.targetVals (deepcopyPool h p).1 = p.targetVals h)
    ∧ (∀ b ∈ (deepcopyPool h p).2.siteAddrs (deepcopyPool h p).1, ∀ u,
        p.targetVals (setUsernameAt (deepcopyPool h p).1 b u)
          = p.targetVals (deepcopyPool h p).1)
    ∧ (∀ a ∈ p.siteAddrs h, ∀ u,
        (deepcopyPool h p).2.targetVals (setUsernameAt (deepcopyPool h p).1 a u)
          = (deepcopyPool h p).2.targetVals (deepcopyPool h p).1)
    ∧ (∀ i j, i < (p.siteAddrs h).length → j < (p.siteAddrs h).length →
        ((h.websites ((p.siteAddrs h).getD i 0)).getD dWeb).dataRef
          = ((h.websites ((p.siteAddrs h).getD j 0)).getD dWeb).dataRef →
        ∃ wi wj,
          (deepcopyPool h p).1.websites
              (((deepcopyPool h p).2.siteAddrs (deepcopyPool h p).1).getD i 0) = some wi
          ∧ (deepcopyPool h p).1.websites
              (((deepcopyPool h p).2.siteAddrs (deepcopyPool h p).1).getD j 0) = some wj
          ∧ wi.dataRef = wj.dataRef)
    ∧ (∀ a ∈ p.siteAddrs h, ∀ u w, h.websites a = some w →
        (shallowCopyPool p).siteAddrs h = p.siteAddrs h
        ∧ (setUsernameAt h a u).websites a = some { w with username := u }
        ∧ (shallowCopyPool p).targetVals (setUsernameAt h a u)
            = p.targetVals (setUsernameAt h a u)) := by
  obtain ⟨hsr, hls, helem⟩ := hwf
  rcases hS : deepcopySites h [] (p.siteAddrs h) with ⟨h1, m1, bs⟩
  have hx0 : heapExtends h h := ⟨Nat.le_refl _, fun _ _ => rfl, fun _ _ => rfl, rfl⟩
  have hm0 : memoOk h h [] := by intro k v hk; cases hk
  have hmc0 : memoCopies h h [] := by intro k v hk; cases hk
  obtain ⟨hSx, hSmono, hSok, hScp, hSpres, hSlen, hSb, hSidx⟩ :=
    deepcopySites_spec h (p.siteAddrs h) h [] h1 m1 bs hx0 hm0 hmc0
      (fun a ha => helem a ha) hS
  have hpool : deepcopyPool h p =
      (Heap.mk (h1.nextAddr + 1) (updFn h1.lists h1.nextAddr bs) h1.websites h1.datas,
       HPool.mk h1.nextAddr p.name p.allow_duplicates) := by
    simp only [deepcopyPool, hS]
  rw [hpool]
  have f1 : (HPool.mk h1.nextAddr p.name p.allow_duplicates).siteAddrs
      (Heap.mk (h1.nextAddr + 1) (updFn h1.lists h1.nextAddr bs) h1.websites h1.datas)
      = bs := by
    show ((updFn h1.lists h1.nextAddr bs) h1.nextAddr).getD [] = bs
    rw [updFn_same]
    rfl
  have hsrlt : p.sitesRef < h1.nextAddr := Nat.lt_of_lt_of_le hsr hSmono
  have f2 : p.siteAddrs
      (Heap.mk (h1.nextAddr + 1) (updFn h1.lists h1.nextAddr bs) h1.websites h1.datas)
      = p.siteAddrs h := by
    show ((updFn h1.lists h1.nextAddr bs) p.sitesRef).getD [] = _
    rw [updFn_other h1.lists h1.nextAddr p.sitesRef bs (by omega)]
    rw [hSx.2.2.2]
    rfl
  have f4 : ∀ a ∈ p.siteAddrs h, h1.websites a = h.websites a := by
    intro a ha
    exact hSx.2.1 a (helem a ha).1
  refine ⟨?_, ?_, ?_, ?_, ?_⟩
  · show (p.siteAddrs _).map _ = (p.siteAddrs h).map _
    rw [f2]
    exact List.map_congr_left f4
  · intro b hb u
    rw [f1] at hb
    show (p.siteAddrs _).map _ = (p.siteAddrs _).map _
    rw [siteAddrs_setUsername, f2]
    apply List.map_congr_left
    intro a ha
    have hblo := (hSb b hb).1
    have halt := (helem a ha).1
    exact setUsernameAt_other _ b a u (by omega)
  · intro a ha u
    simp only [HPool.targetVals]
    rw [siteAddrs_setUsername, f1]
    apply List.map_congr_left
    intro b hb
    have hblo := (hSb b hb).1
    have halt := (helem a ha).1
    exact setUsernameAt_other _ a b u (by omega)
  · intro i j hi hj hshare
    rw [f1]
    have hmemi : (p.siteAddrs h).getD i 0 ∈ p.siteAddrs h := by
      rw [List.getD_eq_getElem _ _ hi]
      exact List.getElem_mem hi
    have hmemj : (p.siteAddrs h).getD j 0 ∈ p.siteAddrs h := by
      rw [List.getD_eq_getElem _ _ hj]
      exact List.getElem_mem hj
    obtain ⟨wi0, hwi0⟩ :=
      Option.isSome_iff_exists.mp (helem _ hmemi).2.1
    obtain ⟨wj0, hwj0⟩ :=
      Option.isSome_iff_exists.mp (helem _ hmemj).2.1
    obtain ⟨di, hreci, hdi⟩ :=
      hScp _ _ (hSidx i hi) wi0 hwi0
    obtain ⟨dj, hrecj, hdj⟩ :=
      hScp _ _ (hSidx j hj) wj0 hwj0
    have hdr : wi0.dataRef = wj0.dataRef := by
      have hgi : (h.websites ((p.siteAddrs h).getD i 0)).getD dWeb = wi0 := by
        rw [hwi0]; rfl
      have hgj : (h.websites ((p.siteAddrs h).getD j 0)).getD dWeb = wj0 := by
        rw [hwj0]; rfl
      rw [hgi, hgj] at hshare
      exact hshare
    have hdd : di = dj := by
      rw [hdr] at hdi
      rw [hdi] at hdj
      exact Option.some_injective _ hdj
    refine ⟨_, _, hreci, hrecj, ?_⟩
    exact hdd
  · intro a ha u w hw
    exact ⟨rfl, setUsernameAt_same h a u w hw, rfl⟩

/-- Witness for C9 on a concrete heap: a pool of two website objects that
share one data object; deep copy leaves the original views intact, the
copies share a single copied data object, and a mutation through a
shallow-copy-shared site address is visible in place. -/
theorem claim9_copy_semantics_witness :
    ((HPool.mk 0 "P" false).targetVals (deepcopyPool (Heap.mk 4 (fun x => if x = 0 then some [1, 2] else none) (fun x => if x = 1 then some (HWebsite.mk "a" "u" 3) else if x = 2 then some (HWebsite.mk "b" "u" 3) else none) (fun x => if x = 3 then some "cfg" else none)) (HPool.mk 0 "P" false)).1
        = (HPool.mk 0 "P" false).targetVals (Heap.mk 4 (fun x => if x = 0 then some [1, 2] else none) (fun x => if x = 1 then some (HWebsite.mk "a" "u" 3) else if x = 2 then some (HWebsite.mk "b" "u" 3) else none) (fun x => if x = 3 then some "cfg" else none)))
    ∧ (∃ wi wj,
        (deepcopyPool (Heap.mk 4 (fun x => if x = 0 then some [1, 2] else none) (fun x => if x = 1 then some (HWebsite.mk "a" "u" 3) else if x = 2 then some (HWebsite.mk "b" "u" 3) else none) (fun x => if x = 3 then some "cfg" else none)) (HPool.mk 0 "P" false)).1.websites
            (((deepcopyPool (Heap.mk 4 (fun x => if x = 0 then some [1, 2] else none) (fun x => if x = 1 then some (HWebsite.mk "a" "u" 3) else if x = 2 then some (HWebsite.mk "b" "u" 3) else none) (fun x => if x = 3 then some "cfg" else none)) (HPool.mk 0 "P" false)).2.siteAddrs
              (deepcopyPool (Heap.mk 4 (fun x => if x = 0 then some [1, 2] else none) (fun x => if x = 1 then some (HWebsite.mk "a" "u" 3) else if x = 2 then some (HWebsite.mk "b" "u" 3) else none) (fun x => if x = 3 then some "cfg" else none)) (HPool.mk 0 "P" false)).1).getD 0 0) = some wi
        ∧ (deepcopyPool (Heap.mk 4 (fun x => if x = 0 then some [1, 2] else none) (fun x => if x = 1 then some (HWebsite.mk "a" "u" 3) else if x = 2 then some (HWebsite.mk "b" "u" 3) else none) (fun x => if x = 3 then some "cfg" else none)) (HPool.mk 0 "P" false)).1.websites
            (((deepcopyPool (Heap.mk 4 (fun x => if x = 0 then some [1, 2] else none) (fun x => if x = 1 then some (HWebsite.mk "a" "u" 3) else if x = 2 then some (HWebsite.mk "b" "u" 3) else none) (fun x => if x = 3 then some "cfg" else none)) (HPool.mk 0 "P" false)).2.siteAddrs
              (deepcopyPool (Heap.mk 4 (fun x => if x = 0 then some [1, 2] else none) (fun x => if x = 1 then some (HWebsite.mk "a" "u" 3) else if x = 2 then some (HWebsite.mk "b" "u" 3) else none) (fun x => if x = 3 then some "cfg" else none)) (HPool.mk 0 "P" false)).1).getD 1 0) = some wj
        ∧ wi.dataRef = wj.dataRef)
    ∧ ((shallowCopyPool (HPool.mk 0 "P" false)).siteAddrs (Heap.mk 4 (fun x => if x = 0 then some [1, 2] else none) (fun x => if x = 1 then some (HWebsite.mk "a" "u" 3) else if x = 2 then some (HWebsite.mk "b" "u" 3) else none) (fun x => if x = 3 then some "cfg" else none))
          = (HPool.mk 0 "P" false).siteAddrs (Heap.mk 4 (fun x => if x = 0 then some [1, 2] else none) (fun x => if x = 1 then some (HWebsite.mk "a" "u" 3) else if x = 2 then some (HWebsite.mk "b" "u" 3) else none) (fun x => if x = 3 then some "cfg" else none))
        ∧ (setUsernameAt (Heap.mk 4 (fun x => if x = 0 then some [1, 2] else none) (fun x => if x = 1 then some (HWebsite.mk "a" "u" 3) else if x = 2 then some (HWebsite.mk "b" "u" 3) else none) (fun x => if x = 3 then some "cfg" else none)) 1 "alice").websites 1
            = some (HWebsite.mk "a" "alice" 3)
        ∧ (shallowCopyPool (HPool.mk 0 "P" false)).targetVals (setUsernameAt (Heap.mk 4 (fun x => if x = 0 then some [1, 2] else none) (fun x => if x = 1 then some (HWebsite.mk "a" "u" 3) else if x = 2 then some (HWebsite.mk "b" "u" 3) else none) (fun x => if x = 3 then some "cfg" else none)) 1 "alice")
            = (HPool.mk 0 "P" false).targetVals (setUsernameAt (Heap.mk 4 (fun x => if x = 0 then some [1, 2] else none) (fun x => if x = 1 then some (HWebsite.mk "a" "u" 3) else if x = 2 then some (HWebsite.mk "b" "u" 3) else none) (fun x => if x = 3 then some "cfg" else none)) 1 "alice")) := by
  have hmain := claim9_copy_semantics (Heap.mk 4 (fun x => if x = 0 then some [1, 2] else none) (fun x => if x = 1 then some (HWebsite.mk "a" "u" 3) else if x = 2 then some (HWebsite.mk "b" "u" 3) else none) (fun x => if x = 3 then some "cfg" else none)) (HPool.mk 0 "P" false)
    (by unfold HPool.wf; decide)
  refine ⟨hmain.1, ?_, ?_⟩
  · exact hmain.2.2.2.1 0 1 (by decide) (by decide) (by decide)
  · exact hmain.2.2.2.2 1 (by decide) "alice" (HWebsite.mk "a" "u" 3) (by decide)

/-- C8: the `results` view exposes exactly the last-known Result of each
target that has one, in pool order — it coincides with the spec-side
`resultsSpec` reading — and the accessors hand out defensive immutable
snapshots: `sites` returns a fresh tuple value equal to the internal list,
and the only pool-owned references a snapshot exposes are the site objects
themselves, so mutating through them (at the heap level) never changes the
pool's site sequence. -/
theorem claim8_results_snapshot (p : WebsitePool) (r : Result)
    (h : Heap) (hp : HPool) (a : Nat) (u : String) :
    p.results = resultsSpec p
    ∧ (r ∈ p.results ↔ ∃ s ∈ p.sites, s.result = some r)
    ∧ p.sitesView = p.sites
    ∧ hp.siteAddrs (setUsernameAt h a u) = hp.siteAddrs h := by
  refine ⟨?_, ?_, rfl, siteAddrs_setUsername h hp a u⟩
  · simp [WebsitePool.results, resultsSpec, List.reduceOption, List.filterMap_map]
  · simp [WebsitePool.results, List.mem_filterMap]
